import Mathlib

/-!
A shallow embedding of the multi-client chat server (`src/server.c`).

Byte strings are modelled as `List Char`, one `Char` per byte (the server
treats its buffers as raw bytes; all protocol-relevant characters are
single-byte).  Machine integers (`int`, `int64_t`) are modelled as `Int`;
signed overflow of `next_id` is undefined behaviour in C and is not
reachable in any trace of realistic length, so ids are unbounded here.
Network and thread primitives are out of scope: every operation returns,
next to the new server state, the list of observable effects (sends,
descriptor closes, audit-log events) it performs, in program order.
-/

namespace ChatServer

/-- Byte strings as lists of characters. -/
abbrev Bytes := List Char

/-- The bytes of a string literal. -/
def str (s : String) : Bytes := s.data

/-- `MAX_CLIENTS` in server.c. -/
def MAX_CLIENTS : Nat := 128

/-- `NAME_LEN` in server.c (31 name bytes plus the NUL terminator). -/
def NAME_LEN : Nat := 32

/-- Size of the output buffer `out[4096]` used by `list_users`. -/
def BUF_OUT : Nat := 4096

/-- One slot of the `clients` table (`client_t`). -/
structure Client where
  fd : Int
  alive : Bool
  id : Int
  name : Bytes
deriving DecidableEq, Repr

/-- The server's shared mutable state: the `clients` table, the `next_id`
counter, `listen_fd`, and whether `logf` is a non-NULL `FILE *`.
(`logf` is never reset to NULL in the C code, so the flag records the
pointer being set, not the stream being open.) -/
structure ServerState where
  clients : List Client
  nextId : Int
  listen_fd : Int
  logf : Bool
deriving DecidableEq, Repr

/-- Observable effects of an operation, in program order. -/
inductive Output where
  | send (fd : Int) (msg : Bytes)
  | closeFd (fd : Int)
  | closeListen
  | logEvent (msg : Bytes)
  | logClose
deriving DecidableEq, Repr

/-- The `(fd, message)` pairs actually written to client sockets. -/
def sends (outs : List Output) : List (Int × Bytes) :=
  outs.filterMap fun o =>
    match o with
    | .send fd m => some (fd, m)
    | _ => none

/-- `log_event` appends to the audit log only when `logf` is non-NULL. -/
def log_event (msg : Bytes) (s : ServerState) : List Output :=
  if s.logf then [Output.logEvent msg] else []

/-- Decimal rendering of an integer, as `%ld` prints it. -/
def intStr (i : Int) : Bytes := (toString i).data

/-- `find_free_slot`: index of the first slot with `alive == 0`
(`none` models the C function's `-1`). -/
def find_free_slot (cs : List Client) : Option Nat :=
  cs.findIdx? (fun c => !c.alive)

/-- `add_client` (server.c lines 87-99): find a free slot; on success store
the fd, mark alive, assign `next_id++` and the default name
`Client-<id>` (snprintf truncates the name to `NAME_LEN - 1` bytes). -/
def add_client (fd : Int) (s : ServerState) : ServerState × Option Nat :=
  match find_free_slot s.clients with
  | none => (s, none)
  | some slot =>
      let c : Client :=
        { fd := fd, alive := true, id := s.nextId
          name := (str "Client-" ++ intStr s.nextId).take (NAME_LEN - 1) }
      ({ s with clients := s.clients.set slot c, nextId := s.nextId + 1 },
       some slot)

/-- `remove_client` (lines 102-111): if the slot is in range and alive,
close its fd, clear `alive`, empty the name and zero the id.  The `fd`
field itself is not overwritten by the C code. -/
def remove_client (slot : Nat) (s : ServerState) : ServerState × List Output :=
  match s.clients[slot]? with
  | some c =>
      if c.alive then
        ({ s with clients :=
            s.clients.set slot { fd := c.fd, alive := false, id := 0, name := [] } },
         [Output.closeFd c.fd])
      else (s, [])
  | none => (s, [])

/-- `find_by_id` (lines 114-122): first alive slot whose id matches. -/
def find_by_id (id : Int) (s : ServerState) : Option Client :=
  s.clients.find? (fun c => c.alive && c.id == id)

/-- `broadcast_except` (lines 125-131): send `msg` to every alive client
whose fd differs from `except_fd` (`-1` excludes nobody, since real
descriptors are nonnegative). -/
def broadcast_except (msg : Bytes) (except_fd : Int) (s : ServerState) :
    List Output :=
  s.clients.filterMap fun c =>
    if c.alive && c.fd != except_fd then some (Output.send c.fd msg) else none

/-- The fixed header line of `/list` output. -/
def listHeader : Bytes := str "=== Connected Users ===\n"

/-- The fixed footer line of `/list` output. -/
def listFooter : Bytes := str "=======================\n"

/-- The rendered listing line for one client (`"ID:%ld  %s\n"`). -/
def userLine (c : Client) : Bytes :=
  str "ID:" ++ intStr c.id ++ str "  " ++ c.name ++ str "\n"

/-- The scan loop of `list_users` (lines 139-141).  `pos` is the running
total of snprintf return values (would-be lengths); the loop runs only
while `pos + 64 < sizeof(out)`, and each snprintf writes at most
`BUF_OUT - pos - 1` bytes of its line. -/
def list_loop : List Client → Bytes → Nat → Bytes × Nat
  | [], out, pos => (out, pos)
  | c :: rest, out, pos =>
      if pos + 64 < BUF_OUT then
        if c.alive then
          list_loop rest (out ++ (userLine c).take (BUF_OUT - pos - 1))
            (pos + (userLine c).length)
        else list_loop rest out pos
      else (out, pos)

/-- `list_users` (lines 134-145): header, the scan loop, the footer
(truncated by snprintf to the remaining capacity), sent to `fd` only. -/
def list_users (fd : Int) (s : ServerState) : List Output :=
  let r := list_loop s.clients [] listHeader.length
  let footerWritten := listFooter.take (min listFooter.length (BUF_OUT - r.2 - 1))
  [Output.send fd (listHeader ++ r.1 ++ footerWritten)]

/-- `isspace` for the default C locale (used by `strtoll`/`atoll`). -/
def isCSpace (c : Char) : Bool :=
  c == ' ' || c == '\t' || c == '\n' || c == '\x0b' || c == '\x0c' || c == '\r'

/-- Value of the leading run of decimal digits (0 when there is none). -/
def digitValue (l : Bytes) : Nat :=
  (l.takeWhile Char.isDigit).foldl (fun acc c => acc * 10 + (c.toNat - '0'.toNat)) 0

/-- `atoll`: skip leading whitespace, an optional sign, then leading
digits; yields 0 when no digits follow.  Overflow saturation is not
modelled (unreachable for protocol-sized inputs). -/
def atoll (l : Bytes) : Int :=
  let t := l.dropWhile isCSpace
  if t.head? = some '-' then -(digitValue (t.drop 1) : Int)
  else if t.head? = some '+' then (digitValue (t.drop 1) : Int)
  else (digitValue t : Int)

/-- Two-state command-interpreter status (§4.2 of the spec): the loop
keeps reading (`Active`) or breaks out to the disconnect sequence
(`Closed`). -/
inductive StepResult where
  | Active
  | Closed
deriving DecidableEq, Repr

/-- Result of one interpreter step: new shared state, effects in order,
the thread-local `my_name` copy after the step, and the loop status. -/
structure StepOut where
  state : ServerState
  outs : List Output
  myName : Bytes
  result : StepResult
deriving DecidableEq, Repr

/-- Overwrite the name stored in slot `slot` (the `/name` critical
section, lines 189-193).  Out-of-range slots cannot occur in the C
program; the model leaves the table unchanged there. -/
def setName (cs : List Client) (slot : Nat) (nm : Bytes) : List Client :=
  match cs[slot]? with
  | some c => cs.set slot { c with name := nm }
  | none => cs

/-- The command dispatch of `client_thread` (lines 180-227) for one
non-empty stripped line `buf`.  `slot`, `fd`, `my_id`, `my_name` are the
thread's locals. -/
def handle_command (s : ServerState) (slot : Nat) (fd my_id : Int)
    (my_name : Bytes) (buf : Bytes) : StepOut :=
  if buf.head? = some '/' then
    if (str "/quit").isPrefixOf buf then
      { state := s, outs := [], myName := my_name, result := .Closed }
    else if (str "/name ").isPrefixOf buf then
      let newn := buf.drop 6
      if newn = [] then
        { state := s, outs := [Output.send fd (str "Usage: /name <newname>\n")]
          myName := my_name, result := .Active }
      else
        let nm := newn.take (NAME_LEN - 1)
        let s' := { s with clients := setName s.clients slot nm }
        let notice :=
          str "[Server] ID " ++ intStr my_id ++ str " is now known as " ++
            nm ++ str "\n"
        { state := s'
          outs := broadcast_except notice (-1) s' ++
            log_event (str "RENAME id=" ++ intStr my_id ++ str " name=" ++ nm) s'
          myName := nm, result := .Active }
    else if (str "/list").isPrefixOf buf then
      { state := s, outs := list_users fd s, myName := my_name, result := .Active }
    else if (str "/msg ").isPrefixOf buf then
      let p := buf.drop 5
      let tid := atoll p
      let p2 := p.dropWhile (fun c => c != ' ')
      let p3 := if p2.head? = some ' ' then p2.drop 1 else p2
      match find_by_id tid s with
      | some tgt =>
          let pm := str "[PM from " ++ my_name ++ str " (ID:" ++ intStr my_id ++
            str ")]: " ++ p3 ++ str "\n"
          { state := s
            outs := [Output.send tgt.fd pm, Output.send fd (str "[PM sent]\n")] ++
              log_event (str "PM from=" ++ intStr my_id ++ str " to=" ++
                intStr tgt.id ++ str " text=" ++ p3) s
            myName := my_name, result := .Active }
      | none =>
          { state := s, outs := [Output.send fd (str "User not found.\n")]
            myName := my_name, result := .Active }
    else
      { state := s, outs := [Output.send fd (str "Unknown command.\n")]
        myName := my_name, result := .Active }
  else
    let out := my_name ++ str " (ID:" ++ intStr my_id ++ str "): " ++ buf ++ str "\n"
    { state := s
      outs := broadcast_except out fd s ++
        log_event (str "MSG id=" ++ intStr my_id ++ str " name=" ++ my_name ++
          str " text=" ++ buf) s
      myName := my_name, result := .Active }

/-- Strip trailing `'\n'`/`'\r'` bytes (line 177). -/
def stripCRLF (l : Bytes) : Bytes :=
  (l.reverse.dropWhile (fun c => c == '\n' || c == '\r')).reverse

/-- One iteration of the read loop (lines 173-227) on a successfully
received chunk `raw`: strip the line terminator; an empty result breaks
out of the loop (line 178), otherwise dispatch the command. -/
def client_step (s : ServerState) (slot : Nat) (fd my_id : Int)
    (my_name : Bytes) (raw : Bytes) : StepOut :=
  let buf := stripCRLF raw
  if buf = [] then { state := s, outs := [], myName := my_name, result := .Closed }
  else handle_command s slot fd my_id my_name buf

/-- `shutdown_server` (lines 239-251): close the listening socket if it
was ever opened (`listen_fd` is not reset, so a second call closes it
again); notify, close and kill every alive client; if `logf` is set,
append a final audit record and `fclose` it.  `logf` is never cleared,
which is what makes a second invocation close the log again. -/
def shutdown_server (s : ServerState) : ServerState × List Output :=
  let listenOuts := if s.listen_fd != -1 then [Output.closeListen] else []
  let perClient := (s.clients.filterMap fun c =>
    if c.alive then
      some [Output.send c.fd (str "[Server] Shutting down.\n"), Output.closeFd c.fd]
    else none).flatten
  let clients' := s.clients.map fun c =>
    if c.alive then { c with alive := false } else c
  let logOuts :=
    if s.logf then [Output.logEvent (str "SERVER SHUTDOWN"), Output.logClose]
    else []
  ({ s with clients := clients' }, listenOuts ++ perClient ++ logOuts)

/-- The accept path of `main` (lines 289-290): try to register; on
`RegistryFull` tell the new connection "Server full." and close it. -/
def accept_client (fd : Int) (s : ServerState) : ServerState × List Output :=
  match add_client fd s with
  | (s', some _) => (s', [])
  | (_, none) => (s, [Output.send fd (str "Server full.\n"), Output.closeFd fd])

/-- `snapshot()` of §4.1: the live `(id, name)` pairs in table order. -/
def snapshot (s : ServerState) : List (Int × Bytes) :=
  (s.clients.filter (fun c => c.alive)).map (fun c => (c.id, c.name))

/-- The state after `main`'s `memset` and successful startup: all slots
zeroed, `next_id = 1`, a listening descriptor, `logf` opened. -/
def init_state : ServerState :=
  { clients := List.replicate MAX_CLIENTS { fd := 0, alive := false, id := 0, name := [] }
    nextId := 1, listen_fd := 3, logf := true }

/-! ## Concrete states used to instantiate the theorems -/

/-- A zeroed slot, as `memset` and `remove_client` leave it. -/
def deadSlot : Client := { fd := 0, alive := false, id := 0, name := [] }

/-- Pad a short prefix of live slots out to the full 128-slot table. -/
def padDead (cs : List Client) : List Client :=
  cs ++ List.replicate (MAX_CLIENTS - cs.length) deadSlot

/-- Two connected sessions (fds 10 and 20, ids 1 and 2). -/
def stA : ServerState :=
  { clients := padDead [{ fd := 10, alive := true, id := 1, name := str "Client-1" },
      { fd := 20, alive := true, id := 2, name := str "Client-2" }]
    nextId := 3, listen_fd := 3, logf := true }

/-- A completely full table: all 128 slots alive. -/
def fullState : ServerState :=
  { clients := (List.range MAX_CLIENTS).map fun i =>
      { fd := (i + 4 : Int), alive := true, id := (i + 1 : Int)
        name := (str "Client-" ++ intStr (i + 1)).take (NAME_LEN - 1) }
    nextId := 129, listen_fd := 3, logf := true }

/-- Registry events a trace may interleave: accepting a connection
(`add_client`) and tearing one down (`remove_client`). -/
inductive Op where
  | register (fd : Int)
  | unregister (slot : Nat)

/-- The ids handed out by the successful registrations of a trace, in
order of registration (a failed, capacity-exhausted registration assigns
nothing). -/
def assignedFrom (s : ServerState) : List Op → List Int
  | [] => []
  | Op.register fd :: ops =>
      match add_client fd s with
      | (s', some _) => s.nextId :: assignedFrom s' ops
      | (s', none) => assignedFrom s' ops
  | Op.unregister slot :: ops => assignedFrom (remove_client slot s).1 ops

/-- Total rendered size of the listing lines of the live sessions. -/
def linesSum (cs : List Client) : Nat :=
  ((cs.filter fun c => c.alive).map fun c => (userLine c).length).sum

/-- The `/list` output as claim C3 describes it (refinement reference,
written from the spec's words): the fixed header, exactly one rendered
line per live session, the fixed footer. -/
def spec_list_render (s : ServerState) : Bytes :=
  listHeader ++ ((s.clients.filter fun c => c.alive).map userLine).flatten ++ listFooter

/-- The full 128-slot table with every name at the 31-byte maximum
(`Client.name` is a 32-byte array in C, so this state is realizable by
128 joins followed by 128 renames). -/
def stLongNames : ServerState :=
  { clients := (List.range MAX_CLIENTS).map fun i =>
      { fd := (i + 4 : Int), alive := true, id := (i + 1 : Int)
        name := List.replicate (NAME_LEN - 1) 'A' }
    nextId := 129, listen_fd := 3, logf := true }


/-- Live sessions must not share an id (§3's uniqueness invariant). -/
def uniqRel (a b : Client) : Prop := a.alive = true → b.alive = true → a.id ≠ b.id

instance : DecidableRel uniqRel := fun a b =>
  inferInstanceAs (Decidable (a.alive = true → b.alive = true → a.id ≠ b.id))

/-- The registry state invariant of §3, strengthened with the auxiliary
bound `1 ≤ id < next_id` for live sessions that makes it inductive: the
table has its fixed 128 slots (hence at most 128 live sessions), live
ids are pairwise distinct, and every dead slot is fully reset (name
cleared, id zeroed). -/
def RegInv (s : ServerState) : Prop :=
  s.clients.length = MAX_CLIENTS ∧
  (s.clients.filter fun c => c.alive).length ≤ MAX_CLIENTS ∧
  s.clients.Pairwise uniqRel ∧
  (1 ≤ s.nextId ∧ ∀ c ∈ s.clients, c.alive = true → 1 ≤ c.id ∧ c.id < s.nextId) ∧
  (∀ c ∈ s.clients, c.alive = false → c.name = [] ∧ c.id = 0)

/-- `RegInv` without the dead-slot-reset clause — the part of the
invariant that `shutdown_server` does preserve. -/
def RegInvCore (s : ServerState) : Prop :=
  s.clients.length = MAX_CLIENTS ∧
  (s.clients.filter fun c => c.alive).length ≤ MAX_CLIENTS ∧
  s.clients.Pairwise uniqRel ∧
  (1 ≤ s.nextId ∧ ∀ c ∈ s.clients, c.alive = true → 1 ≤ c.id ∧ c.id < s.nextId)

instance (s : ServerState) : Decidable (RegInv s) := by
  unfold RegInv
  infer_instance

instance (s : ServerState) : Decidable (RegInvCore s) := by
  unfold RegInvCore
  infer_instance

/-- One live session named "Bob" in slot 0, the rest of the table reset. -/
def stBob : ServerState :=
  { clients := padDead [{ fd := 5, alive := true, id := 1, name := str "Bob" }]
    nextId := 2, listen_fd := 3, logf := true }

/-! ## C1 — empty line after stripping -/

/-- **C1 (counterexample).** The claim says a line that is empty after
stripping trailing `'\n'`/`'\r'` is discarded and the session stays
`Active`.  On the code, line 178 (`if (n == 0) break;`) exits the read
loop instead: receiving the two-byte chunk `"\r\n"` strips to the empty
line, and the interpreter transitions to `Closed`, not `Active`. -/
theorem claim_C1_counterexample :
    stripCRLF (str "\r\n") = [] ∧
    (client_step stA 0 10 1 (str "Client-1") (str "\r\n")).result ≠ StepResult.Active := by
  decide

/-- **C1 (amended).** For every received chunk that becomes empty after
stripping trailing `'\n'`/`'\r'`, the interpreter performs no action —
nothing is sent, the registry is untouched, the local name is kept — but
the session transitions to `Closed` (the same exit as end-of-stream),
rather than remaining `Active`. -/
theorem claim_C1_empty_line_closes (s : ServerState) (slot : Nat) (fd my_id : Int)
    (my_name raw : Bytes) (h : stripCRLF raw = []) :
    client_step s slot fd my_id my_name raw =
      { state := s, outs := [], myName := my_name, result := .Closed } := by
  simp [client_step, h]

/-- **C1 (witness).** The amended statement at the concrete chunk `"\r\n"`. -/
theorem claim_C1_witness :
    client_step stA 0 10 1 (str "Client-1") (str "\r\n") =
      { state := stA, outs := [], myName := str "Client-1", result := .Closed } :=
  claim_C1_empty_line_closes stA 0 10 1 (str "Client-1") (str "\r\n") (by decide)

/-! ## C4 — registration at full capacity -/

/-- **C4.** When every one of the 128 slots holds a live session,
registration fails: `add_client` returns no slot (`RegistryFull`) and
leaves the whole state — table and `next_id` — unchanged, and the accept
path tells the new connection "Server full." and closes it at once. -/
theorem claim_C4_registry_full (s : ServerState) (fd : Int)
    (_hlen : s.clients.length = MAX_CLIENTS)
    (hall : ∀ c ∈ s.clients, c.alive = true) :
    (add_client fd s).2 = none ∧ (add_client fd s).1 = s ∧
    accept_client fd s =
      (s, [Output.send fd (str "Server full.\n"), Output.closeFd fd]) := by
  have hf : find_free_slot s.clients = none := by
    rw [find_free_slot, List.findIdx?_eq_none_iff]
    intro c hc
    simp [hall c hc]
  refine ⟨?_, ?_, ?_⟩
  · simp [add_client, hf]
  · simp [add_client, hf]
  · rw [accept_client]
    simp [add_client, hf]

set_option maxRecDepth 20000 in
/-- **C4 (witness).** The full 128-slot table rejects fd 200 unchanged. -/
theorem claim_C4_witness :
    (add_client 200 fullState).2 = none ∧ (add_client 200 fullState).1 = fullState ∧
    accept_client 200 fullState =
      (fullState, [Output.send 200 (str "Server full.\n"), Output.closeFd 200]) :=
  claim_C4_registry_full fullState 200 (by decide) (by decide)

/-! ## C10 — prefix-based command dispatch -/

/-- **C10.** Dispatch matches fixed-length prefixes only: any line whose
first five bytes are `/quit` (so also `/quitnow`) exits to the disconnect
sequence with no output; any line whose first five bytes are `/list`
triggers the listing to the requester; the bare lines `/name` and `/msg`
(no trailing space, hence no argument) fall through every match and get
"Unknown command.", not a usage hint. -/
theorem claim_C10_prefix_dispatch :
    (∀ (s : ServerState) (slot : Nat) (fd mid : Int) (mn rest : Bytes),
      handle_command s slot fd mid mn (str "/quit" ++ rest) =
        { state := s, outs := [], myName := mn, result := .Closed }) ∧
    (∀ (s : ServerState) (slot : Nat) (fd mid : Int) (mn rest : Bytes),
      handle_command s slot fd mid mn (str "/list" ++ rest) =
        { state := s, outs := list_users fd s, myName := mn, result := .Active }) ∧
    (∀ (s : ServerState) (slot : Nat) (fd mid : Int) (mn : Bytes),
      handle_command s slot fd mid mn (str "/name") =
        { state := s, outs := [Output.send fd (str "Unknown command.\n")]
          myName := mn, result := .Active }) ∧
    (∀ (s : ServerState) (slot : Nat) (fd mid : Int) (mn : Bytes),
      handle_command s slot fd mid mn (str "/msg") =
        { state := s, outs := [Output.send fd (str "Unknown command.\n")]
          myName := mn, result := .Active }) := by
  refine ⟨?_, ?_, ?_, ?_⟩ <;>
    (intros; simp [handle_command, str, List.isPrefixOf])

/-- **C10 (witness).** The dispatch rules at concrete lines `/quitnow`,
`/listextra`, `/name`, `/msg` in the two-session state. -/
theorem claim_C10_witness :
    handle_command stA 0 10 1 (str "Client-1") (str "/quit" ++ str "now") =
      { state := stA, outs := [], myName := str "Client-1", result := .Closed } ∧
    handle_command stA 0 10 1 (str "Client-1") (str "/list" ++ str "extra") =
      { state := stA, outs := list_users 10 stA, myName := str "Client-1"
        result := .Active } ∧
    handle_command stA 0 10 1 (str "Client-1") (str "/name") =
      { state := stA, outs := [Output.send 10 (str "Unknown command.\n")]
        myName := str "Client-1", result := .Active } ∧
    handle_command stA 0 10 1 (str "Client-1") (str "/msg") =
      { state := stA, outs := [Output.send 10 (str "Unknown command.\n")]
        myName := str "Client-1", result := .Active } :=
  ⟨claim_C10_prefix_dispatch.1 stA 0 10 1 (str "Client-1") (str "now"),
   claim_C10_prefix_dispatch.2.1 stA 0 10 1 (str "Client-1") (str "extra"),
   claim_C10_prefix_dispatch.2.2.1 stA 0 10 1 (str "Client-1"),
   claim_C10_prefix_dispatch.2.2.2 stA 0 10 1 (str "Client-1")⟩

/-! ## C5 — ids are unique and strictly increasing -/

/-- `remove_client` never touches the `next_id` counter. -/
theorem remove_client_nextId (slot : Nat) (s : ServerState) :
    (remove_client slot s).1.nextId = s.nextId := by
  rw [remove_client]
  rcases h : s.clients[slot]? with _ | c
  · rfl
  · by_cases hc : c.alive <;> simp [hc]

/-- Every id a trace assigns is at least the starting `next_id`. -/
theorem assigned_lb (ops : List Op) :
    ∀ s : ServerState, ∀ x ∈ assignedFrom s ops, s.nextId ≤ x := by
  induction ops with
  | nil => intro s x hx; simp [assignedFrom] at hx
  | cons op ops ih =>
      intro s x hx
      cases op with
      | register fd =>
          rcases hf : find_free_slot s.clients with _ | slot
          · rw [assignedFrom, add_client, hf] at hx
            exact ih s x hx
          · rw [assignedFrom, add_client, hf] at hx
            rcases List.mem_cons.1 hx with rfl | hx'
            · exact le_refl _
            · have := ih _ x hx'
              simp at this
              omega
      | unregister slot =>
          rw [assignedFrom] at hx
          have := ih _ x hx
          rwa [remove_client_nextId] at this

/-- **C5.** Along every sequence of registrations and unregistrations
from the startup state, the ids assigned by successful registrations are
pairwise strictly increasing in order of registration — hence pairwise
distinct and never reused, even after the registering session's slot has
been freed.  (The capacity restriction in the claim is not even needed:
a registration that fails on a full table assigns no id.) -/
theorem claim_C5_ids_strictly_increasing (ops : List Op) :
    (assignedFrom init_state ops).Pairwise (· < ·) := by
  suffices h : ∀ s : ServerState, (assignedFrom s ops).Pairwise (· < ·) from h init_state
  induction ops with
  | nil => intro s; simp [assignedFrom]
  | cons op ops ih =>
      intro s
      cases op with
      | register fd =>
          rcases hf : find_free_slot s.clients with _ | slot
          · rw [assignedFrom, add_client, hf]; exact ih _
          · rw [assignedFrom, add_client, hf]
            refine List.Pairwise.cons ?_ (ih _)
            intro x hx
            have := assigned_lb ops _ x hx
            simp at this
            omega
      | unregister slot =>
          rw [assignedFrom]; exact ih _

set_option maxRecDepth 20000 in
/-- **C5 (witness).** A concrete trace — three registrations with an
interleaved unregistration — yields the strictly increasing ids 1, 2, 3,
and slot 0's freed slot is refilled without reusing id 1. -/
theorem claim_C5_witness :
    assignedFrom init_state
      [Op.register 10, Op.register 11, Op.unregister 0, Op.register 12] =
        [1, 2, 3] ∧
    (assignedFrom init_state
      [Op.register 10, Op.register 11, Op.unregister 0, Op.register 12]).Pairwise
        (· < ·) :=
  ⟨by decide,
   claim_C5_ids_strictly_increasing
     [Op.register 10, Op.register 11, Op.unregister 0, Op.register 12]⟩

/-! ## Character and parsing lemmas for the `/msg` argument scan -/

/-- A decimal digit never `==`-matches a non-digit character. -/
theorem beq_eq_false_of_isDigit {d c : Char} (hd : d.isDigit = true)
    (hc : c.isDigit = false) : (d == c) = false := by
  cases hb : d == c
  · rfl
  · rw [eq_of_beq hb] at hd
    rw [hd] at hc
    exact absurd hc (by simp)

/-- Digits are not C whitespace. -/
theorem isCSpace_eq_false_of_isDigit {d : Char} (hd : d.isDigit = true) :
    isCSpace d = false := by
  rw [isCSpace]
  rw [beq_eq_false_of_isDigit hd (by decide), beq_eq_false_of_isDigit hd (by decide),
    beq_eq_false_of_isDigit hd (by decide), beq_eq_false_of_isDigit hd (by decide),
    beq_eq_false_of_isDigit hd (by decide), beq_eq_false_of_isDigit hd (by decide)]
  rfl

/-- The digit scan of `atoll` stops exactly at the separating space. -/
theorem takeWhile_digits_append {ds : Bytes} (text : Bytes)
    (hds : ∀ x ∈ ds, x.isDigit = true) :
    List.takeWhile Char.isDigit (ds ++ ' ' :: text) = ds := by
  induction ds with
  | nil => simp [List.takeWhile_cons]
  | cons d ds ih =>
      have hd := hds d (List.mem_cons_self ..)
      simp only [List.cons_append, List.takeWhile_cons, hd, if_true]
      rw [ih (fun x hx => hds x (List.mem_cons_of_mem _ hx))]

/-- A pure digit string is consumed whole by the digit scan. -/
theorem takeWhile_digits_self {ds : Bytes} (hds : ∀ x ∈ ds, x.isDigit = true) :
    List.takeWhile Char.isDigit ds = ds := by
  induction ds with
  | nil => rfl
  | cons d ds ih =>
      have hd := hds d (List.mem_cons_self ..)
      simp only [List.takeWhile_cons, hd, if_true]
      rw [ih (fun x hx => hds x (List.mem_cons_of_mem _ hx))]

/-- The pointer walk `while (*p && *p != ' ') p++;` lands on the first
space when the id field contains none. -/
theorem dropWhile_nonspace_append {ds : Bytes} (text : Bytes)
    (hds : ∀ x ∈ ds, (x == ' ') = false) :
    List.dropWhile (fun c => c != ' ') (ds ++ ' ' :: text) = ' ' :: text := by
  induction ds with
  | nil => simp [List.dropWhile_cons]
  | cons d ds ih =>
      have hd := hds d (List.mem_cons_self ..)
      simp only [List.cons_append, List.dropWhile_cons, bne, hd]
      exact ih (fun x hx => hds x (List.mem_cons_of_mem _ hx))

/-- `atoll` on `<digits> <text>` yields exactly the value of the digits. -/
theorem atoll_digits_append {ds : Bytes} (text : Bytes) (hne : ds ≠ [])
    (hds : ∀ x ∈ ds, x.isDigit = true) :
    atoll (ds ++ ' ' :: text) = (digitValue ds : Int) := by
  rcases ds with _ | ⟨d, ds'⟩
  · exact absurd rfl hne
  · have hd := hds d (List.mem_cons_self ..)
    rw [atoll]
    have hdrop : List.dropWhile isCSpace ((d :: ds') ++ ' ' :: text) =
        (d :: ds') ++ ' ' :: text := by
      simp [List.dropWhile_cons, isCSpace_eq_false_of_isDigit hd]
    rw [hdrop]
    have hne1 : ((d :: ds') ++ ' ' :: text).head? ≠ some '-' := by
      simp only [List.cons_append, List.head?_cons]
      intro hdm
      rw [Option.some.inj hdm] at hd
      exact absurd hd (by decide)
    have hne2 : ((d :: ds') ++ ' ' :: text).head? ≠ some '+' := by
      simp only [List.cons_append, List.head?_cons]
      intro hdm
      rw [Option.some.inj hdm] at hd
      exact absurd hd (by decide)
    rw [if_neg hne1, if_neg hne2]
    rw [digitValue, digitValue, takeWhile_digits_append text hds,
      takeWhile_digits_self hds]

/-! ## C6 — `/msg <id> <text>` routing -/

/-- **C6.** For a `/msg` line whose id field is a digit string followed by
one separating space and arbitrary text (which may itself contain
spaces): the state, the local name and the `Active` status are untouched;
if a live session with the parsed id exists, the outputs are exactly the
rendered PM to that target's fd, the acknowledgment "[PM sent]" to the
sender, and the audit record — no send to any third session; if none
exists, the single output is "User not found." to the sender. -/
theorem claim_C6_private_message (s : ServerState) (slot : Nat) (fd my_id : Int)
    (my_name ds text : Bytes) (hne : ds ≠ [])
    (hds : ∀ x ∈ ds, x.isDigit = true) :
    handle_command s slot fd my_id my_name (str "/msg " ++ (ds ++ ' ' :: text)) =
      match find_by_id (digitValue ds : Int) s with
      | some tgt =>
          { state := s
            outs := [Output.send tgt.fd (str "[PM from " ++ my_name ++ str " (ID:" ++
                intStr my_id ++ str ")]: " ++ text ++ str "\n"),
              Output.send fd (str "[PM sent]\n")] ++
              log_event (str "PM from=" ++ intStr my_id ++ str " to=" ++
                intStr tgt.id ++ str " text=" ++ text) s
            myName := my_name, result := .Active }
      | none =>
          { state := s, outs := [Output.send fd (str "User not found.\n")]
            myName := my_name, result := .Active } := by
  have hsp : ∀ x ∈ ds, (x == ' ') = false :=
    fun x hx => beq_eq_false_of_isDigit (hds x hx) (by decide)
  simp [handle_command, str, List.isPrefixOf, atoll_digits_append text hne hds,
    dropWhile_nonspace_append text hsp]

set_option maxRecDepth 20000 in
/-- **C6 (witness).** `/msg 1 hi` from session 2: the PM goes to fd 10
(session 1), the acknowledgment to fd 20 (the sender), and nobody else
receives anything. -/
theorem claim_C6_witness :
    (handle_command stA 1 20 2 (str "Client-2") (str "/msg " ++ (str "1" ++ ' ' :: str "hi")) =
      match find_by_id (digitValue (str "1") : Int) stA with
      | some tgt =>
          { state := stA
            outs := [Output.send tgt.fd (str "[PM from " ++ str "Client-2" ++ str " (ID:" ++
                intStr 2 ++ str ")]: " ++ str "hi" ++ str "\n"),
              Output.send 20 (str "[PM sent]\n")] ++
              log_event (str "PM from=" ++ intStr 2 ++ str " to=" ++
                intStr tgt.id ++ str " text=" ++ str "hi") stA
            myName := str "Client-2", result := .Active }
      | none =>
          { state := stA, outs := [Output.send 20 (str "User not found.\n")]
            myName := str "Client-2", result := .Active }) ∧
    sends (handle_command stA 1 20 2 (str "Client-2")
        (str "/msg " ++ (str "1" ++ ' ' :: str "hi"))).outs =
      [((10 : Int), str "[PM from Client-2 (ID:2)]: hi\n"),
       ((20 : Int), str "[PM sent]\n")] :=
  ⟨claim_C6_private_message stA 1 20 2 (str "Client-2") (str "1") (str "hi")
     (by decide) (by decide),
   by decide⟩

/-! ## C7 — malformed `/msg` id fields -/

set_option maxRecDepth 20000 in
/-- **C7 (counterexample).** The claim says every id field that does not
begin with a digit parses as 0 and always takes the "User not found."
path.  But `atoll` skips leading whitespace and accepts a sign: for the
line `/msg +1 hi` the id field begins with `'+'` (not a digit), yet it
parses as 1, and since session 1 is live the PM is delivered to fd 10 —
not the not-found reply. -/
theorem claim_C7_counterexample :
    atoll (str "+1 hi") ≠ 0 ∧
    sends (handle_command stA 1 20 2 (str "Client-2")
        (str "/msg " ++ (str "+1 hi"))).outs ≠
      [((20 : Int), str "User not found.\n")] ∧
    sends (handle_command stA 1 20 2 (str "Client-2")
        (str "/msg " ++ (str "+1 hi"))).outs =
      [((10 : Int), str "[PM from Client-2 (ID:2)]: hi\n"),
       ((20 : Int), str "[PM sent]\n")] := by
  decide

/-- **C7 (amended).** For every `/msg` line whose id field begins with a
character that is neither a digit, nor C whitespace, nor a `'+'`/`'-'`
sign, `atoll` parses 0; and in any state in which no live session holds
id 0 (true of every reachable state, since ids are assigned from 1
upward), the command replies exactly "User not found." to the sender,
sends nothing to anyone else, leaves the state unchanged, and does not
crash (the session stays `Active`). -/
theorem claim_C7_malformed_id (s : ServerState) (slot : Nat) (fd my_id : Int)
    (my_name : Bytes) (c : Char) (t : Bytes)
    (h1 : c.isDigit = false) (h2 : isCSpace c = false) (h3 : c ≠ '-') (h4 : c ≠ '+')
    (hz : ∀ cl ∈ s.clients, cl.alive = true → cl.id ≠ 0) :
    atoll (c :: t) = 0 ∧
    handle_command s slot fd my_id my_name (str "/msg " ++ (c :: t)) =
      { state := s, outs := [Output.send fd (str "User not found.\n")]
        myName := my_name, result := .Active } := by
  have hat : atoll (c :: t) = 0 := by
    rw [atoll]
    have hdrop : List.dropWhile isCSpace (c :: t) = c :: t := by
      simp [List.dropWhile_cons, h2]
    rw [hdrop]
    have hne1 : (c :: t).head? ≠ some '-' := by
      simp only [List.head?_cons]
      intro hdm
      exact h3 (Option.some.inj hdm)
    have hne2 : (c :: t).head? ≠ some '+' := by
      simp only [List.head?_cons]
      intro hdm
      exact h4 (Option.some.inj hdm)
    rw [if_neg hne1, if_neg hne2]
    rw [digitValue]
    simp [List.takeWhile_cons, h1]
  have hfind : find_by_id 0 s = none := by
    rw [find_by_id]
    apply List.find?_eq_none.2
    intro cl hcl
    cases hal : cl.alive
    · simp [hal]
    · simp [hal]
      exact hz cl hcl hal
  refine ⟨hat, ?_⟩
  simp [handle_command, str, List.isPrefixOf, hat, hfind]

set_option maxRecDepth 20000 in
/-- **C7 (witness).** The amended statement at the line `/msg xyz` in the
two-session state: the id parses as 0 and only the sender hears back. -/
theorem claim_C7_witness :
    atoll ('x' :: str "yz") = 0 ∧
    handle_command stA 1 20 2 (str "Client-2") (str "/msg " ++ ('x' :: str "yz")) =
      { state := stA, outs := [Output.send 20 (str "User not found.\n")]
        myName := str "Client-2", result := .Active } :=
  claim_C7_malformed_id stA 1 20 2 (str "Client-2") 'x' (str "yz")
    (by decide) (by decide) (by decide) (by decide) (by decide)

/-! ## C8 — `/name` rename with silent truncation -/

/-- Moving a guarded `filterMap` through `sends`-style extraction. -/
theorem filterMap_guard_eq {α β : Type} (P : α → Bool) (h : α → β) :
    ∀ l : List α, (l.filterMap fun a => if P a then some (h a) else none) =
      (l.filter P).map h := by
  intro l
  induction l with
  | nil => rfl
  | cons a l ih =>
      by_cases hP : P a = true
      · simp [List.filterMap_cons, List.filter_cons, hP, ih]
      · simp [List.filterMap_cons, List.filter_cons, hP, ih]

/-- `sends` distributes over concatenated effect lists. -/
theorem sends_append (a b : List Output) : sends (a ++ b) = sends a ++ sends b :=
  List.filterMap_append ..

/-- Audit records are not socket writes. -/
theorem sends_log_event (msg : Bytes) (s : ServerState) :
    sends (log_event msg s) = [] := by
  rw [log_event]; split <;> rfl

/-- The socket writes of a broadcast: one copy of the line per live
client whose fd differs from the excluded one, in table order. -/
theorem sends_broadcast (msg : Bytes) (e : Int) (s : ServerState) :
    sends (broadcast_except msg e s) =
      (s.clients.filter fun c => c.alive && c.fd != e).map fun c => (c.fd, msg) := by
  rw [broadcast_except, sends, List.filterMap_filterMap]
  rw [List.filterMap_congr (g := fun c : Client =>
      if c.alive && c.fd != e then some (c.fd, msg) else none) ?_]
  · exact filterMap_guard_eq _ _ _
  · intro c _
    by_cases hc : (c.alive && c.fd != e) = true <;> simp [hc]

/-- `setName` at an occupied slot is a plain `List.set`. -/
theorem setName_eq_set {cs : List Client} {slot : Nat} {c0 : Client}
    (h : cs[slot]? = some c0) (nm : Bytes) :
    setName cs slot nm = cs.set slot { c0 with name := nm } := by
  rw [setName, h]

/-- **C8.** For `/name <newName>` with non-empty `newName`, from any state
whose slot is live and whose live fds are real descriptors (≠ -1): the
stored name of the slot and the thread's local copy both become
`newName` silently truncated to 31 bytes (`NAME_LEN - 1`), the session
stays `Active`, and the rename notice is written to every live session —
including the sender, whose `(fd, notice)` pair is among the writes. -/
theorem claim_C8_rename (s : ServerState) (slot : Nat) (fd my_id : Int)
    (my_name nm : Bytes) (hne : nm ≠ [])
    (hslot : (s.clients[slot]?).map Client.alive = some true)
    (hfd : ∀ c ∈ s.clients, c.alive = true → c.fd ≠ -1) :
    (handle_command s slot fd my_id my_name (str "/name " ++ nm)).myName =
        nm.take (NAME_LEN - 1) ∧
    (handle_command s slot fd my_id my_name (str "/name " ++ nm)).result = .Active ∧
    (handle_command s slot fd my_id my_name (str "/name " ++ nm)).state =
      { s with clients := setName s.clients slot (nm.take (NAME_LEN - 1)) } ∧
    sends (handle_command s slot fd my_id my_name (str "/name " ++ nm)).outs =
      ((setName s.clients slot (nm.take (NAME_LEN - 1))).filter fun c => c.alive).map
        (fun c => (c.fd, str "[Server] ID " ++ intStr my_id ++
          str " is now known as " ++ nm.take (NAME_LEN - 1) ++ str "\n")) ∧
    (∀ c₀, s.clients[slot]? = some c₀ →
      (c₀.fd, str "[Server] ID " ++ intStr my_id ++ str " is now known as " ++
          nm.take (NAME_LEN - 1) ++ str "\n") ∈
        sends (handle_command s slot fd my_id my_name (str "/name " ++ nm)).outs) := by
  have hex : ∃ c0, s.clients[slot]? = some c0 := by
    rcases h : s.clients[slot]? with _ | c0
    · rw [h] at hslot; exact absurd hslot (by simp)
    · exact ⟨c0, rfl⟩
  rcases hex with ⟨c0, hc0⟩
  have halive : c0.alive = true := by
    rw [hc0] at hslot
    simpa using hslot
  have hlt : slot < s.clients.length := (List.getElem?_eq_some.1 hc0).1
  have hset := setName_eq_set hc0 (nm.take (NAME_LEN - 1))
  have heq : handle_command s slot fd my_id my_name (str "/name " ++ nm) =
      { state := { s with clients := setName s.clients slot (nm.take (NAME_LEN - 1)) }
        outs := broadcast_except (str "[Server] ID " ++ intStr my_id ++
            str " is now known as " ++ nm.take (NAME_LEN - 1) ++ str "\n") (-1)
            { s with clients := setName s.clients slot (nm.take (NAME_LEN - 1)) } ++
          log_event (str "RENAME id=" ++ intStr my_id ++ str " name=" ++
            nm.take (NAME_LEN - 1))
            { s with clients := setName s.clients slot (nm.take (NAME_LEN - 1)) }
        myName := nm.take (NAME_LEN - 1), result := .Active } := by
    simp [handle_command, str, List.isPrefixOf, hne]
  have hfd' : ∀ c ∈ setName s.clients slot (nm.take (NAME_LEN - 1)),
      c.alive = true → c.fd ≠ -1 := by
    intro c hc hca
    rw [hset] at hc
    rcases List.mem_or_eq_of_mem_set hc with hmem | rfl
    · exact hfd c hmem hca
    · exact hfd c0 (List.getElem?_mem hc0) halive
  have hsends : sends (handle_command s slot fd my_id my_name (str "/name " ++ nm)).outs =
      ((setName s.clients slot (nm.take (NAME_LEN - 1))).filter fun c => c.alive).map
        (fun c => (c.fd, str "[Server] ID " ++ intStr my_id ++
          str " is now known as " ++ nm.take (NAME_LEN - 1) ++ str "\n")) := by
    rw [heq]
    simp only [StepOut.outs]
    rw [sends_append, sends_log_event, List.append_nil, sends_broadcast]
    congr 1
    apply List.filter_congr
    intro c hc
    cases hca : c.alive
    · rfl
    · simp [hfd' c hc hca]
  refine ⟨by rw [heq], by rw [heq], by rw [heq], hsends, ?_⟩
  intro c₀ hc₀
  have hcc : c₀ = c0 := by
    rw [hc0] at hc₀
    exact (Option.some.inj hc₀).symm
  subst hcc
  rw [hsends]
  apply List.mem_map.2
  refine ⟨{ c₀ with name := nm.take (NAME_LEN - 1) }, ?_, rfl⟩
  apply List.mem_filter.2
  refine ⟨?_, by simpa using halive⟩
  rw [hset]
  exact List.getElem?_mem (List.getElem?_set_eq_of_lt _ hlt)

/-! ## C3 — `/list` output -/

/-- When the whole listing fits the `out[4096]` buffer with the loop's
64-byte margin, the scan appends exactly one full line per live client. -/
theorem list_loop_full :
    ∀ (cs : List Client) (out : Bytes) (pos : Nat),
      (∀ c ∈ cs, c.alive = true → (userLine c).length < 64) →
      pos + linesSum cs + 64 < BUF_OUT →
      list_loop cs out pos =
        (out ++ ((cs.filter fun c => c.alive).map userLine).flatten, pos + linesSum cs) := by
  intro cs
  induction cs with
  | nil => intro out pos _ _; simp [list_loop, linesSum]
  | cons c rest ih =>
      intro out pos hlt hfit
      cases hal : c.alive with
      | false =>
          have hsum : linesSum (c :: rest) = linesSum rest := by
            simp [linesSum, List.filter_cons, hal]
          rw [hsum] at hfit
          rw [list_loop, if_pos (by omega), hal]
          simp only [Bool.false_eq_true, if_false]
          rw [ih out pos (fun x hx => hlt x (List.mem_cons_of_mem _ hx)) hfit]
          simp [List.filter_cons, hal, hsum]
      | true =>
          have hline := hlt c (List.mem_cons_self ..) hal
          have hsum : linesSum (c :: rest) = (userLine c).length + linesSum rest := by
            simp [linesSum, List.filter_cons, hal]
          rw [hsum] at hfit
          have hguard : pos + 64 < BUF_OUT := by omega
          have htake : (userLine c).take (BUF_OUT - pos - 1) = userLine c :=
            List.take_of_length_le (by omega)
          rw [list_loop, if_pos hguard, hal]
          simp only [if_true]
          rw [htake]
          rw [ih (out ++ userLine c) (pos + (userLine c).length)
            (fun x hx => hlt x (List.mem_cons_of_mem _ hx)) (by omega)]
          simp [List.filter_cons, hal, hsum, List.append_assoc]
          omega

/-- The scan writes `final pos - initial pos` bytes whenever every live
line is under the 64-byte margin (so no line is ever cut mid-way). -/
theorem list_loop_len :
    ∀ (cs : List Client) (out : Bytes) (pos : Nat),
      (∀ c ∈ cs, c.alive = true → (userLine c).length < 64) →
      (list_loop cs out pos).1.length = out.length + ((list_loop cs out pos).2 - pos) ∧
      pos ≤ (list_loop cs out pos).2 := by
  intro cs
  induction cs with
  | nil => intro out pos _; simp [list_loop]
  | cons c rest ih =>
      intro out pos hlt
      by_cases hguard : pos + 64 < BUF_OUT
      · cases hal : c.alive with
        | false =>
            rw [list_loop, if_pos hguard, hal]
            simp only [Bool.false_eq_true, if_false]
            exact ih out pos (fun x hx => hlt x (List.mem_cons_of_mem _ hx))
        | true =>
            have hline := hlt c (List.mem_cons_self ..) hal
            have htake : (userLine c).take (BUF_OUT - pos - 1) = userLine c :=
              List.take_of_length_le (by omega)
            rw [list_loop, if_pos hguard, hal]
            simp only [if_true]
            rw [htake]
            have := ih (out ++ userLine c) (pos + (userLine c).length)
              (fun x hx => hlt x (List.mem_cons_of_mem _ hx))
            rcases this with ⟨h1, h2⟩
            refine ⟨?_, by omega⟩
            rw [h1, List.length_append]
            omega
      · rw [list_loop, if_neg hguard]
        simp

set_option maxRecDepth 40000 in
/-- **C3 (counterexample).** The claim says no live session is ever
omitted from `/list` output.  But the loop stops as soon as
`pos + 64 < 4096` fails: with 128 live sessions carrying 31-byte names
the lines total 5012 bytes, the scan stops at `pos = 4036` after 103
lines, and the sent message (4060 bytes) is not the full listing
(5060 bytes) — sessions in the trailing slots are silently omitted. -/
theorem claim_C3_counterexample :
    ¬ (list_users 5 stLongNames = [Output.send 5 (spec_list_render stLongNames)]) := by
  intro h
  have hlt : ∀ c ∈ stLongNames.clients, c.alive = true → (userLine c).length < 64 := by
    decide
  have hpos : (list_loop stLongNames.clients [] listHeader.length).2 = 4036 := by
    decide
  have hsum : linesSum stLongNames.clients = 5012 := by decide
  have e1 : list_users 5 stLongNames =
      [Output.send 5 (listHeader ++ (list_loop stLongNames.clients [] listHeader.length).1 ++
        listFooter.take (min listFooter.length
          (BUF_OUT - (list_loop stLongNames.clients [] listHeader.length).2 - 1)))] := rfl
  rw [e1] at h
  injection h with h1 h2
  injection h1 with h3 hm
  have hhead : listHeader.length = 24 := by decide
  rw [hhead] at hpos
  have hbody := (list_loop_len stLongNames.clients [] listHeader.length hlt).1
  rw [hhead, hpos] at hbody
  simp only [List.length_nil, Nat.zero_add] at hbody
  have hL : (listHeader ++ (list_loop stLongNames.clients [] listHeader.length).1 ++
      listFooter.take (min listFooter.length
        (BUF_OUT - (list_loop stLongNames.clients [] listHeader.length).2 - 1))).length =
      4060 := by
    rw [List.length_append, List.length_append, hhead, hpos, hbody]
    have hfootlen : (listFooter.take (min listFooter.length (BUF_OUT - 4036 - 1))).length =
        24 := by decide
    rw [hfootlen]
  have hR : (spec_list_render stLongNames).length = 5060 := by
    rw [spec_list_render, List.length_append, List.length_append, List.length_flatten]
    rw [List.map_map]
    have hcomp : (List.map (List.length ∘ userLine)
        (stLongNames.clients.filter fun c => c.alive)).sum =
        linesSum stLongNames.clients := rfl
    rw [hcomp, hsum, hhead]
    decide
  have := congrArg List.length hm
  rw [hL, hR] at this
  exact absurd this (by decide)

/-- **C3 (amended).** Whenever the accumulated listing stays inside the
4096-byte buffer with the loop's 64-byte margin (which holds for every
registry whose rendered lines total under 4008 bytes — ids over the
process lifetime keep each line below 64 bytes), `/list` produces
exactly the header, one line per live session in table order with no
live session omitted and no dead slot included, and the footer, and it
is sent only to the requesting fd; beyond that bound trailing live
sessions are omitted, as the counterexample shows. -/
theorem claim_C3_list_exact (fd : Int) (s : ServerState)
    (hlt : ∀ c ∈ s.clients, c.alive = true → (userLine c).length < 64)
    (hfit : listHeader.length + linesSum s.clients + 64 < BUF_OUT) :
    list_users fd s = [Output.send fd (spec_list_render s)] := by
  rw [list_users, list_loop_full s.clients [] listHeader.length hlt hfit]
  have hfoot : listFooter.take
      (min listFooter.length (BUF_OUT - (listHeader.length + linesSum s.clients) - 1)) =
      listFooter := by
    apply List.take_of_length_le
    have h24 : listFooter.length = 24 := by decide
    have h24h : listHeader.length = 24 := by decide
    omega
  simp only [hfoot, spec_list_render, List.nil_append]

set_option maxRecDepth 20000 in
/-- **C3 (witness).** In the two-session state the listing is exactly the
framed pair of lines, sent only to the requesting fd 10. -/
theorem claim_C3_witness :
    list_users 10 stA = [Output.send 10 (spec_list_render stA)] ∧
    spec_list_render stA = str
      "=== Connected Users ===\nID:1  Client-1\nID:2  Client-2\n=======================\n" :=
  ⟨claim_C3_list_exact 10 stA (by decide) (by decide), by decide⟩

set_option maxRecDepth 20000 in
/-- **C8 (witness).** Session 1 renames itself with a 40-byte name; the
stored and broadcast name is its 31-byte truncation, and both live
sessions — the sender included — receive the notice. -/
theorem claim_C8_witness :
    ((handle_command stA 0 10 1 (str "Client-1")
        (str "/name " ++ str "ABCDEFGHIJKLMNOPQRSTUVWXYZabcdefghijklmn")).myName =
      (str "ABCDEFGHIJKLMNOPQRSTUVWXYZabcdefghijklmn").take (NAME_LEN - 1) ∧
    (handle_command stA 0 10 1 (str "Client-1")
        (str "/name " ++ str "ABCDEFGHIJKLMNOPQRSTUVWXYZabcdefghijklmn")).result = .Active ∧
    (handle_command stA 0 10 1 (str "Client-1")
        (str "/name " ++ str "ABCDEFGHIJKLMNOPQRSTUVWXYZabcdefghijklmn")).state =
      { stA with clients := (setName stA.clients 0
          ((str "ABCDEFGHIJKLMNOPQRSTUVWXYZabcdefghijklmn").take (NAME_LEN - 1))) } ∧
    sends (handle_command stA 0 10 1 (str "Client-1")
        (str "/name " ++ str "ABCDEFGHIJKLMNOPQRSTUVWXYZabcdefghijklmn")).outs =
      ((setName stA.clients 0
          ((str "ABCDEFGHIJKLMNOPQRSTUVWXYZabcdefghijklmn").take (NAME_LEN - 1))).filter
        fun c => c.alive).map
        (fun c => (c.fd, str "[Server] ID " ++ intStr 1 ++
          str " is now known as " ++
          (str "ABCDEFGHIJKLMNOPQRSTUVWXYZabcdefghijklmn").take (NAME_LEN - 1) ++
          str "\n")) ∧
    (∀ c₀, stA.clients[0]? = some c₀ →
      (c₀.fd, str "[Server] ID " ++ intStr 1 ++ str " is now known as " ++
          (str "ABCDEFGHIJKLMNOPQRSTUVWXYZabcdefghijklmn").take (NAME_LEN - 1) ++
          str "\n") ∈
        sends (handle_command stA 0 10 1 (str "Client-1")
          (str "/name " ++ str "ABCDEFGHIJKLMNOPQRSTUVWXYZabcdefghijklmn")).outs)) ∧
    ((handle_command stA 0 10 1 (str "Client-1")
        (str "/name " ++ str "ABCDEFGHIJKLMNOPQRSTUVWXYZabcdefghijklmn")).myName).length = 31 :=
  ⟨claim_C8_rename stA 0 10 1 (str "Client-1")
     (str "ABCDEFGHIJKLMNOPQRSTUVWXYZabcdefghijklmn")
     (by decide) (by decide) (by decide),
   by decide⟩

/-! ## C9 — the registry state invariant -/

/-- Setting a slot to a client compatible with everybody keeps the
pairwise id-uniqueness of the table. -/
theorem pairwise_uniq_set :
    ∀ (cs : List Client) (slot : Nat) (c : Client),
      cs.Pairwise uniqRel → (∀ b ∈ cs, uniqRel c b ∧ uniqRel b c) →
      (cs.set slot c).Pairwise uniqRel := by
  intro cs
  induction cs with
  | nil => intro slot c _ _; simp
  | cons x xs ih =>
      intro slot c hp hok
      cases slot with
      | zero =>
          rw [List.set_cons_zero]
          exact List.Pairwise.cons
            (fun b hb => (hok b (List.mem_cons_of_mem _ hb)).1)
            (List.Pairwise.sublist (List.sublist_cons_self x xs) hp)
      | succ n =>
          rw [List.set_cons_succ]
          refine List.Pairwise.cons ?_ (ih n c (List.Pairwise.sublist
            (List.sublist_cons_self x xs) hp)
            (fun b hb => hok b (List.mem_cons_of_mem _ hb)))
          intro b hb
          rcases List.mem_or_eq_of_mem_set hb with hmem | rfl
          · exact List.rel_of_pairwise_cons hp hmem
          · exact (hok x (List.mem_cons_self ..)).2

/-- A table with no live session trivially has unique live ids. -/
theorem pairwise_uniq_of_all_dead :
    ∀ cs : List Client, (∀ c ∈ cs, c.alive = false) → cs.Pairwise uniqRel := by
  intro cs
  induction cs with
  | nil => intro _; simp
  | cons x xs ih =>
      intro h
      refine List.Pairwise.cons ?_ (ih fun c hc => h c (List.mem_cons_of_mem _ hc))
      intro b _ hx
      rw [h x (List.mem_cons_self ..)] at hx
      exact absurd hx (by simp)

/-- Writing back the element a position already holds changes nothing. -/
theorem list_set_self {α : Type} :
    ∀ (l : List α) (n : Nat) (a : α), l[n]? = some a → l.set n a = l := by
  intro l
  induction l with
  | nil => intro n a h; simp at h
  | cons x xs ih =>
      intro n a h
      cases n with
      | zero =>
          simp at h
          rw [List.set_cons_zero, h]
      | succ m =>
          simp at h
          rw [List.set_cons_succ, ih m a h]

/-- A rename does not change any slot's `(alive, id)` projection. -/
theorem proj_setName (cs : List Client) (slot : Nat) (nm : Bytes) :
    (setName cs slot nm).map (fun c => (c.alive, c.id)) =
      cs.map (fun c => (c.alive, c.id)) := by
  rw [setName]
  rcases h : cs[slot]? with _ | c0
  · rfl
  · rw [List.map_set]
    apply list_set_self
    simp [h]

/-- Renames preserve pairwise id-uniqueness: the relation only looks at
`alive` and `id`, which `setName` never touches. -/
theorem pairwise_uniq_setName (cs : List Client) (slot : Nat) (nm : Bytes)
    (hp : cs.Pairwise uniqRel) : (setName cs slot nm).Pairwise uniqRel := by
  have h1 : (cs.map (fun c => (c.alive, c.id))).Pairwise
      (fun x y : Bool × Int => x.1 = true → y.1 = true → x.2 ≠ y.2) :=
    List.pairwise_map.2 hp
  rw [← proj_setName cs slot nm] at h1
  have h2 := List.pairwise_map.1 h1
  exact h2

/-- Replacing any slot with a client whose id is the fresh `next_id`
(about to be bumped) preserves the invariant. -/
theorem regInv_set_fresh (s : ServerState) (slot : Nat) (c : Client)
    (h : RegInv s) (hca : c.alive = true) (hcid : c.id = s.nextId) :
    RegInv { s with clients := s.clients.set slot c, nextId := s.nextId + 1 } := by
  obtain ⟨hlen, _hcnt, hpw, ⟨hpos, hbound⟩, hreset⟩ := h
  unfold RegInv
  dsimp only
  refine ⟨?_, ?_, ?_, ⟨by omega, ?_⟩, ?_⟩
  · simp only [List.length_set]
    exact hlen
  · have := List.length_filter_le (fun c => c.alive) (s.clients.set slot c)
    rw [List.length_set, hlen] at this
    exact this
  · apply pairwise_uniq_set _ _ _ hpw
    intro b hb
    constructor
    · intro _ hba
      have := (hbound b hb hba).2
      omega
    · intro hba _
      have := (hbound b hb hba).2
      omega
  · intro x hx hxa
    rcases List.mem_or_eq_of_mem_set hx with hmem | rfl
    · have := hbound x hmem hxa
      constructor
      · exact this.1
      · have h2 := this.2
        omega
    · constructor
      · omega
      · omega
  · intro x hx hxd
    rcases List.mem_or_eq_of_mem_set hx with hmem | rfl
    · exact hreset x hmem hxd
    · rw [hca] at hxd
      exact absurd hxd (by simp)

/-- Replacing any slot with a fully reset dead record preserves the
invariant. -/
theorem regInv_set_dead (s : ServerState) (slot : Nat) (c : Client)
    (h : RegInv s) (h1 : c.alive = false) (h2 : c.name = []) (h3 : c.id = 0) :
    RegInv { s with clients := s.clients.set slot c } := by
  obtain ⟨hlen, _hcnt, hpw, ⟨hpos, hbound⟩, hreset⟩ := h
  unfold RegInv
  dsimp only
  refine ⟨?_, ?_, ?_, ⟨hpos, ?_⟩, ?_⟩
  · simp only [List.length_set]
    exact hlen
  · have := List.length_filter_le (fun c => c.alive) (s.clients.set slot c)
    rw [List.length_set, hlen] at this
    exact this
  · apply pairwise_uniq_set _ _ _ hpw
    intro b _
    constructor
    · intro hdead
      rw [h1] at hdead
      exact absurd hdead (by simp)
    · intro _ hdead
      rw [h1] at hdead
      exact absurd hdead (by simp)
  · intro x hx hxa
    rcases List.mem_or_eq_of_mem_set hx with hmem | rfl
    · exact hbound x hmem hxa
    · rw [h1] at hxa
      exact absurd hxa (by simp)
  · intro x hx hxd
    rcases List.mem_or_eq_of_mem_set hx with hmem | rfl
    · exact hreset x hmem hxd
    · exact ⟨h2, h3⟩

/-- `add_client` preserves the registry invariant. -/
theorem regInv_add_client (fd : Int) (s : ServerState) (h : RegInv s) :
    RegInv (add_client fd s).1 := by
  rw [add_client]
  rcases hf : find_free_slot s.clients with _ | slot
  · exact h
  · dsimp only
    exact regInv_set_fresh s slot _ h rfl rfl

/-- `remove_client` preserves the registry invariant. -/
theorem regInv_remove_client (slot : Nat) (s : ServerState) (h : RegInv s) :
    RegInv (remove_client slot s).1 := by
  rw [remove_client]
  rcases hc : s.clients[slot]? with _ | c0
  · exact h
  · dsimp only
    by_cases hal : c0.alive = true
    · rw [if_pos hal]
      exact regInv_set_dead s slot _ h rfl rfl rfl
    · rw [if_neg hal]
      exact h

/-- Renaming a live slot preserves the registry invariant. -/
theorem regInv_setName (s : ServerState) (slot : Nat) (nm : Bytes) (h : RegInv s)
    (hslot : (s.clients[slot]?).map Client.alive = some true) :
    RegInv { s with clients := setName s.clients slot nm } := by
  obtain ⟨hlen, _hcnt, hpw, ⟨hpos, hbound⟩, hreset⟩ := h
  have hex : ∃ c0, s.clients[slot]? = some c0 ∧ c0.alive = true := by
    rcases hc : s.clients[slot]? with _ | c0
    · rw [hc] at hslot; exact absurd hslot (by simp)
    · rw [hc] at hslot; exact ⟨c0, rfl, by simpa using hslot⟩
  rcases hex with ⟨c0, hc0, hal⟩
  have hset := setName_eq_set hc0 nm
  refine ⟨?_, ?_, pairwise_uniq_setName _ _ _ hpw, ⟨hpos, ?_⟩, ?_⟩
  · rw [hset]
    simp only [List.length_set]
    exact hlen
  · rw [hset]
    have := List.length_filter_le (fun c => c.alive)
      (s.clients.set slot { c0 with name := nm })
    rw [List.length_set, hlen] at this
    exact this
  · intro c hc hca
    rw [hset] at hc
    rcases List.mem_or_eq_of_mem_set hc with hmem | rfl
    · exact hbound c hmem hca
    · exact hbound c0 (List.getElem?_mem hc0) hca
  · intro c hc hcd
    rw [hset] at hc
    rcases List.mem_or_eq_of_mem_set hc with hmem | rfl
    · exact hreset c hmem hcd
    · have hcd' : c0.alive = false := hcd
      rw [hal] at hcd'
      exact absurd hcd' (by simp)

/-- Every dispatch branch either leaves the state untouched or performs
a rename of the caller's slot. -/
theorem handle_command_state_cases (s : ServerState) (slot : Nat) (fd mid : Int)
    (mn buf : Bytes) :
    (handle_command s slot fd mid mn buf).state = s ∨
    ∃ nm, (handle_command s slot fd mid mn buf).state =
      { s with clients := setName s.clients slot nm } := by
  rw [handle_command]
  by_cases h1 : buf.head? = some '/'
  · rw [if_pos h1]
    by_cases h2 : ((str "/quit").isPrefixOf buf) = true
    · rw [if_pos h2]; left; rfl
    · rw [if_neg h2]
      by_cases h3 : ((str "/name ").isPrefixOf buf) = true
      · rw [if_pos h3]
        dsimp only
        by_cases h4 : (buf.drop 6 = ([] : Bytes))
        · rw [if_pos h4]; left; rfl
        · rw [if_neg h4]
          right
          exact ⟨(buf.drop 6).take (NAME_LEN - 1), rfl⟩
      · rw [if_neg h3]
        by_cases h5 : ((str "/list").isPrefixOf buf) = true
        · rw [if_pos h5]; left; rfl
        · rw [if_neg h5]
          by_cases h6 : ((str "/msg ").isPrefixOf buf) = true
          · rw [if_pos h6]
            dsimp only
            rcases hfind : find_by_id (atoll (buf.drop 5)) s with _ | tgt
            · left; rfl
            · left; rfl
          · rw [if_neg h6]; left; rfl
  · rw [if_neg h1]; left; rfl

/-- Command dispatch from a live slot preserves the registry invariant. -/
theorem regInv_handle_command (s : ServerState) (slot : Nat) (fd mid : Int)
    (mn buf : Bytes) (h : RegInv s)
    (hslot : (s.clients[slot]?).map Client.alive = some true) :
    RegInv (handle_command s slot fd mid mn buf).state := by
  rcases handle_command_state_cases s slot fd mid mn buf with heq | ⟨nm, heq⟩
  · rw [heq]; exact h
  · rw [heq]; exact regInv_setName s slot nm h hslot

/-- One read-loop iteration from a live slot preserves the invariant. -/
theorem regInv_client_step (s : ServerState) (slot : Nat) (fd mid : Int)
    (mn raw : Bytes) (h : RegInv s)
    (hslot : (s.clients[slot]?).map Client.alive = some true) :
    RegInv (client_step s slot fd mid mn raw).state := by
  rw [client_step]
  by_cases he : stripCRLF raw = []
  · rw [if_pos he]; exact h
  · rw [if_neg he]; exact regInv_handle_command s slot fd mid mn _ h hslot

/-- `shutdown_server` preserves the capacity, uniqueness and id-bound
clauses (it kills every session), but not the dead-slot-reset clause. -/
theorem regInvCore_shutdown (s : ServerState) (h : RegInv s) :
    RegInvCore (shutdown_server s).1 := by
  obtain ⟨hlen, _hcnt, _hpw, ⟨hpos, _hbound⟩, _hreset⟩ := h
  rw [shutdown_server]
  unfold RegInvCore
  dsimp only
  have hdead : ∀ c ∈ s.clients.map (fun c =>
      if c.alive = true then { c with alive := false } else c), c.alive = false := by
    intro c hc
    rcases List.mem_map.1 hc with ⟨x, _, rfl⟩
    by_cases hx : x.alive = true
    · rw [if_pos hx]
    · rw [if_neg hx]
      exact Bool.not_eq_true _ ▸ (by revert hx; cases x.alive <;> simp)
  refine ⟨?_, ?_, pairwise_uniq_of_all_dead _ hdead, ⟨hpos, ?_⟩⟩
  · rw [List.length_map]
    exact hlen
  · have := List.length_filter_le (fun c => c.alive) (s.clients.map (fun c =>
      if c.alive = true then { c with alive := false } else c))
    rw [List.length_map, hlen] at this
    exact this
  · intro c hc hca
    rw [hdead c hc] at hca
    exact absurd hca (by simp)

set_option maxRecDepth 40000 in
/-- **C9 (counterexample).** The claim says every registry operation,
shutdown included, preserves the full invariant with its dead-slot-reset
clause.  But `shutdown_server` (lines 242-248) only flips `alive` to 0:
starting from a valid state with one live session named "Bob", the state
after shutdown has a dead slot that still carries name "Bob" and id 1,
so the invariant is not preserved. -/
theorem claim_C9_counterexample :
    RegInv stBob ∧ ¬ RegInv (shutdown_server stBob).1 := by
  constructor
  · decide
  · decide

/-- **C9 (amended).** `register`, `unregister` and the command
interpreter's mutations (rename; lookup and broadcast leave the state
untouched by construction) preserve the full registry invariant — at
most 128 live sessions, pairwise distinct live ids in `[1, next_id)`,
and every dead slot fully reset.  `shutdown` preserves the capacity,
uniqueness and id-bound clauses but leaves the name and id of the slots
it kills in place; the table is never reused after shutdown. -/
theorem claim_C9_invariants :
    (∀ (fd : Int) (s : ServerState), RegInv s → RegInv (add_client fd s).1) ∧
    (∀ (slot : Nat) (s : ServerState), RegInv s → RegInv (remove_client slot s).1) ∧
    (∀ (s : ServerState) (slot : Nat) (fd mid : Int) (mn raw : Bytes),
      RegInv s → (s.clients[slot]?).map Client.alive = some true →
      RegInv (client_step s slot fd mid mn raw).state) ∧
    (∀ s : ServerState, RegInv s → RegInvCore (shutdown_server s).1) :=
  ⟨regInv_add_client, regInv_remove_client, regInv_client_step, regInvCore_shutdown⟩

set_option maxRecDepth 40000 in
/-- **C9 (witness).** The amended preservation statements instantiated in
the two-session state: a registration, an unregistration, a rename via
the interpreter, and a shutdown. -/
theorem claim_C9_witness :
    RegInv (add_client 30 stA).1 ∧
    RegInv (remove_client 0 stA).1 ∧
    RegInv (client_step stA 0 10 1 (str "Client-1") (str "/name Bob\n")).state ∧
    RegInvCore (shutdown_server stA).1 :=
  ⟨claim_C9_invariants.1 30 stA (by decide),
   claim_C9_invariants.2.1 0 stA (by decide),
   claim_C9_invariants.2.2.1 stA 0 10 1 (str "Client-1") (str "/name Bob\n")
     (by decide) (by decide),
   claim_C9_invariants.2.2.2 stA (by decide)⟩

/-! ## C2 — process-wide shutdown -/

set_option maxRecDepth 40000 in
/-- **C2.** Evaluation of `shutdown_server` at the claim's scenario (two
live sessions) and at the failing input (a second invocation).  The
first call sends the shutdown notice to each live session exactly once,
closes both connection handles, empties the registry snapshot and closes
the audit log once — but because neither `logf` nor `listen_fd` is
cleared, a second invocation writes to and `fclose`s the already-closed
log again (undefined behaviour in C): the operation is not idempotent
and the log is not closed exactly once across invocations. -/
theorem claim_C2_shutdown :
    sends (shutdown_server stA).2 =
      [((10 : Int), str "[Server] Shutting down.\n"),
       ((20 : Int), str "[Server] Shutting down.\n")] ∧
    (shutdown_server stA).2.count (Output.closeFd 10) = 1 ∧
    (shutdown_server stA).2.count (Output.closeFd 20) = 1 ∧
    snapshot (shutdown_server stA).1 = [] ∧
    (shutdown_server stA).2.count Output.logClose = 1 ∧
    (shutdown_server (shutdown_server stA).1).2.count Output.logClose = 1 ∧
    (shutdown_server (shutdown_server stA).1).2 ≠ [] := by
  refine ⟨by decide, by decide, by decide, by decide, by decide, by decide, by decide⟩

end ChatServer
